import Mathlib

set_option maxHeartbeats 1000000

/-!
Shallow embedding of the `xlrs` terminal wizard (src/main.rs, src/types.rs,
src/utils.rs) together with proofs about its filter model, pagination, merge
engine, export builder and key handlers.

Modelling conventions:
* `usize` is modelled as `Nat`; Rust's `saturating_sub` coincides with `Nat`
  truncated subtraction, `saturating_add 1` with `Nat.succ`.
* Spreadsheet cells are already strings (the source stringifies every
  `calamine` cell on load), so a grid is a `List (List String)`.
* The `calamine` decoder boundary is a function from a sheet name to an
  optional grid (`Err` becomes `none`).
* Rust `HashSet` / `HashMap` values are modelled as lists; the source only
  consumes membership (respectively last-inserted lookup), which the list
  models preserve.
* The `tui_input` widgets (`row_input`, `sheet_search`, filename and
  per-column text fields) are external; the text they deliver enters the
  model as an explicit argument (for example the parsed row index in
  `handle_row_trim`, or the final text in the `Reachable` edit steps).
* The external `unidecode` transliteration used by `normalize_text` is
  abstracted as a function parameter `u`.
-/

/-- Column visibility state (src/types.rs, `ColumnState`). -/
inductive ColumnState where
  | Hidden
  | Original
  | NonEmpty
deriving DecidableEq

/-- Per-column export configuration (src/types.rs, `ColumnConfig`): `pre` and
`post` model the source's prefix and postfix input values. -/
structure ColumnConfig where
  pre : String
  post : String
deriving DecidableEq

instance : Inhabited ColumnConfig := ⟨⟨"", ""⟩⟩

/-- Wizard step (src/types.rs, `Step`). -/
inductive Step where
  | SheetSelect
  | RowTrim
  | MergePrompt
  | ColSelect
  | Preview
  | Export
deriving DecidableEq

/-- Export sub-field focus (src/types.rs, `ExportEdit`): `Dedup`, `Pre` and
`Post` model the source's `Deduplicate`, prefix and postfix constructors. -/
inductive ExportEdit where
  | FileName
  | Dedup
  | KeyStr
  | Pre
  | Post
deriving DecidableEq

/-- The crossterm key codes the handlers match on; `KChar c` models
`KeyCode::Char(c)`. -/
inductive KeyCode where
  | Up
  | Down
  | Left
  | Right
  | Enter
  | Home
  | End
  | Tab
  | KChar (c : Char)
deriving DecidableEq

/-- Wizard state (src/types.rs, `App`).  The text-input widgets themselves
(`row_input`, `sheet_search`, `export_filename`), the derived search-match
list and the toast fields are purely presentational and are not modelled;
the text they deliver enters through the step relation instead. -/
structure App where
  sheets : List String
  selected_sheet : Option Nat
  data : List (List String)
  first_row : Nat
  columns : List ColumnState
  selected_column : Nat
  step : Step
  current_page : Nat
  rows_per_page : Nat
  column_configs : List ColumnConfig
  custom_keys : List String
  export_focus_row : Nat
  export_edit : ExportEdit
  merge_info : Option (List (String × List String))
  deduplicate : Bool
deriving DecidableEq

/-- The decoder boundary: a workbook resolves a sheet name to a grid of
string cells or fails (`calamine::Xlsx::worksheet_range`). -/
def Workbook := String → Option (List (List String))

/-- Rust `str::trim` (standard library, external to the repository): remove
leading and trailing whitespace.  Written over the char list so that it
reduces definitionally (core `String.trim` is defined by well-founded
recursion and does not). -/
def trim_text (t : String) : String :=
  ⟨List.reverse (List.dropWhile Char.isWhitespace
    (List.reverse (List.dropWhile Char.isWhitespace t.data)))⟩

/-- src/utils.rs, `normalize_text`: transliterate (external `unidecode`,
abstracted as `u`), replace every space and dash by an underscore
(`str::replace` with a char set), lowercase (`str::to_lowercase`).  The two
standard-library passes are modelled over the char list. -/
def normalize_text (u : String → String) (text : String) : String :=
  ⟨((u text).data.map fun c => if c = ' ' ∨ c = '-' then '_' else c).map Char.toLower⟩

/-- src/utils.rs, `navigate_index`: wrap-around cursor motion. -/
def navigate_index (cur len : Nat) (key : KeyCode) : Nat :=
  match key with
  | .Down => (cur + 1) % len
  | .Up => (cur + len - 1) % len
  | _ => cur

/-- The `matches!(state, Original | NonEmpty)` test used by
`visible_columns`, `is_row_visible` and `create_table`. -/
def visible_state (st : ColumnState) : Bool :=
  match st with
  | .Original | .NonEmpty => true
  | .Hidden => false

/-- src/types.rs, `App::visible_columns`: indices of the non-hidden columns,
in column order. -/
def App.visible_columns (s : App) : List Nat :=
  (s.columns.enum.filter fun p => visible_state p.2).map Prod.fst

/-- src/main.rs, `App::is_row_visible`: every `NonEmpty` column's cell must be
non-blank after trimming; `Original` and `Hidden` columns impose no
constraint.  The source indexes `self.columns[i]` for every cell index of the
row and would panic on a row wider than `columns`; grids are rectangular, and
the model reads `Hidden` (no constraint) for such an index. -/
def App.is_row_visible (s : App) (row : List String) : Bool :=
  row.enum.all fun p =>
    match s.columns.getD p.1 ColumnState.Hidden with
    | .Original | .Hidden => true
    | .NonEmpty => !(trim_text p.2).data.isEmpty

/-- src/types.rs, `App::total_pages`: the visible-row count is taken from
`first_row` onwards (`skip(self.first_row)`, the header row included). -/
def App.total_pages (s : App) : Nat :=
  let visible_rows := ((s.data.drop s.first_row).filter s.is_row_visible).length
  (visible_rows + s.rows_per_page - 1) / s.rows_per_page

/-- The count `total_pages` divides: visible rows at or after `first_row`. -/
def App.visible_row_count (s : App) : Nat :=
  ((s.data.drop s.first_row).filter s.is_row_visible).length

/-- src/types.rs, `App::create_json_records`.  A `serde_json` object is
modelled as the list of (key, value) pairs inserted into it, in insertion
order; values are plain strings (`Value::String`).  Out-of-range reads that
the source performs on fields whose length is guaranteed by the loading
invariant are modelled with `getD` defaults. -/
def App.create_json_records (u : String → String) (s : App) :
    List (List (String × String)) :=
  let visible_columns := s.visible_columns
  ((s.data.drop (s.first_row + 1)).filter s.is_row_visible).map fun row =>
    visible_columns.filterMap fun col_idx =>
      match row.get? col_idx with
      | none => none
      | some value =>
        let config := s.column_configs.getD col_idx default
        let field_name :=
          if (s.custom_keys.getD col_idx "") = "" then
            (s.data.getD s.first_row []).getD col_idx ""
          else s.custom_keys.getD col_idx ""
        some (normalize_text u field_name, config.pre ++ value ++ config.post)

/-- src/main.rs, `App::check_merge_options`: for every sheet other than the
selected one that decodes and has a row at `first_row`, the primary header's
trimmed names also present in that sheet's trimmed header; a candidate is
recorded only when this shared list is non-empty. -/
def App.check_merge_options (wb : Workbook) (s : App) : List (String × List String) :=
  match s.data.get? s.first_row with
  | none => []
  | some primary_header =>
    s.sheets.enum.filterMap fun p =>
      if some p.1 = s.selected_sheet then none
      else
        match wb p.2 with
        | none => none
        | some rows =>
          match rows.get? s.first_row with
          | none => none
          | some header_row =>
            let sheet_set := header_row.map trim_text
            let mutual_cols :=
              (primary_header.map trim_text).filter fun c => sheet_set.contains c
            if mutual_cols.isEmpty then none else some (p.2, mutual_cols)

/-- The common-column set built at the top of src/main.rs,
`App::perform_merge`: the primary header's trimmed names, intersected in
sequence with every candidate's shared-name list.  The source's `HashSet` is
modelled as a list; only membership is consumed. -/
def merge_common (primary_header : List String) (info : List (String × List String)) :
    List String :=
  info.foldl (fun common m => common.filter fun c => m.2.contains c)
    (primary_header.map trim_text)

/-- The new header built in `App::perform_merge`: the primary header's cells
whose trimmed names belong to the common set, original casing and order. -/
def merge_new_header (primary_header : List String)
    (info : List (String × List String)) : List String :=
  primary_header.filter fun c => (merge_common primary_header info).contains (trim_text c)

/-- The name-to-index header map inside `App::perform_merge`'s `merge_sheet`
closure: `HashMap` collected from an enumeration keeps the last index for a
duplicated trimmed name, hence `getLast?`. -/
def header_lookup (header_row : List String) (key : String) : Option Nat :=
  (header_row.enum.filterMap fun p => if trim_text p.2 = key then some p.1 else none).getLast?

/-- Row projection inside `merge_sheet`: each common column is looked up in
the sheet's own header map; a missing name or missing cell becomes "". -/
def project_row (header_row new_header row : List String) : List String :=
  new_header.map fun col_name =>
    match header_lookup header_row (trim_text col_name) with
    | some idx => row.getD idx ""
    | none => ""

/-- The `merge_sheet` closure of `App::perform_merge`: the rows a single
sheet contributes (none when it fails to decode or has at most `first_row`
rows). -/
def try_merge_sheet (wb : Workbook) (first_row : Nat) (new_header : List String)
    (name : String) : List (List String) :=
  match wb name with
  | none => []
  | some rows =>
    if rows.length ≤ first_row then []
    else (rows.drop (first_row + 1)).map (project_row (rows.getD first_row []) new_header)

/-- The sheets `App::perform_merge` visits, in order: the selected sheet,
then every merge candidate.  The source indexes
`self.sheets[self.selected_sheet.unwrap()]`; the model reads "" defaults in
the (unreachable) unwrap and out-of-range cases. -/
def App.contrib_names (s : App) : List String :=
  s.sheets.getD (s.selected_sheet.getD 0) "" :: (s.merge_info.getD []).map Prod.fst

/-- src/main.rs, `App::perform_merge`: replace `data` with the new header
followed by every contributing sheet's projected rows, collapse `sheets` to
the sentinel, reset the selection and `first_row`.  The export-filename reset
is presentational and not modelled.  Note that the per-column vectors
(`columns`, `column_configs`, `custom_keys`) are left untouched. -/
def App.perform_merge (wb : Workbook) (s : App) : App :=
  match s.data.get? s.first_row with
  | none => s
  | some primary_header =>
    let new_header := merge_new_header primary_header (s.merge_info.getD [])
    let merged_data :=
      new_header :: (s.contrib_names.map (try_merge_sheet wb s.first_row new_header)).flatten
    { s with data := merged_data, sheets := ["[Merged]"], selected_sheet := some 0,
             first_row := 0 }

/-- src/main.rs, `App::load_sheet`, returning the mutated state and the
success flag.  The source stores the stringified grid into `data` before the
emptiness check, so a successfully decoded empty sheet still overwrites
`data`; per-column state is reinitialized only on success. -/
def App.load_sheet (wb : Workbook) (s : App) : App × Bool :=
  match s.selected_sheet with
  | none => (s, false)
  | some idx =>
    match wb (s.sheets.getD idx "") with
    | none => (s, false)
    | some rows =>
      if rows.isEmpty then ({ s with data := rows }, false)
      else
        let col_count := (rows.getD 0 []).length
        ({ s with data := rows,
                  columns := List.replicate col_count ColumnState.Hidden,
                  column_configs := List.replicate col_count default,
                  custom_keys := List.replicate col_count "" }, true)

/-- src/types.rs, `App::handle_back`: the fixed predecessor table. -/
def App.handle_back (s : App) : Step :=
  match s.step with
  | .SheetSelect => .SheetSelect
  | .Export => .Preview
  | .Preview => .ColSelect
  | .ColSelect | .MergePrompt => .RowTrim
  | .RowTrim => .SheetSelect

/-- src/main.rs, `App::handle_sheet_select`.  The fall-through arm only edits
the search input and recomputes the match list; its effect on
`selected_sheet` is modelled by the `sheet_search` step of `Reachable`. -/
def App.handle_sheet_select (wb : Workbook) (key : KeyCode) (s : App) : App :=
  match key with
  | .Up =>
    { s with selected_sheet :=
        match s.selected_sheet with
        | some i => some (i - 1)
        | none => some 0 }
  | .Down =>
    { s with selected_sheet :=
        match s.selected_sheet with
        | some i => some (min (i + 1) (s.sheets.length - 1))
        | none => some 0 }
  | .Enter =>
    match s.load_sheet wb with
    | (s', true) => { s' with step := .RowTrim }
    | (s', false) => s'
  | _ => s

/-- src/main.rs, `App::handle_row_trim`.  `parsed` is the result of
`self.row_input.value().trim().parse::<usize>()` (standard-library parsing,
external to the repository).  Any key other than Enter only edits the row
input widget, which is not part of the modelled state. -/
def App.handle_row_trim (wb : Workbook) (parsed : Option Nat) (s : App) : App :=
  match parsed with
  | some row =>
    if row < s.data.length then
      let s' := { s with first_row := row }
      let info := s'.check_merge_options wb
      if info.isEmpty then { s' with step := .ColSelect }
      else { s' with merge_info := some info, step := .MergePrompt }
    else s
  | none => s

/-- src/main.rs, `App::handle_merge_prompt`. -/
def App.handle_merge_prompt (wb : Workbook) (key : KeyCode) (s : App) : App :=
  match key with
  | .KChar c =>
    if c = 'y' ∨ c = 'Y' then
      { s.perform_merge wb with merge_info := none, step := .ColSelect }
    else if c = 'n' ∨ c = 'N' then { s with merge_info := none, step := .ColSelect }
    else s
  | _ => s

/-- src/main.rs, `App::toggle_col_select` (`get_mut` makes the out-of-range
cursor a no-op, which the positional map reproduces). -/
def App.toggle_col_select (s : App) : App :=
  { s with columns := s.columns.enum.map fun p =>
      if p.1 = s.selected_column then
        match p.2 with
        | ColumnState.Hidden => ColumnState.NonEmpty
        | _ => ColumnState.Hidden
      else p.2 }

/-- src/main.rs, `App::toggle_all_col`. -/
def App.toggle_all_col (s : App) : App :=
  let all_hidden := s.columns.all fun c =>
    match c with
    | ColumnState.Hidden => true
    | _ => false
  { s with columns := s.columns.map fun _ =>
      if all_hidden then ColumnState.NonEmpty else ColumnState.Hidden }

/-- src/main.rs, `App::toggle_col_filter`: toggles the focused visible column
between `Original` and `NonEmpty`. -/
def App.toggle_col_filter (s : App) : App :=
  match s.visible_columns.get? s.selected_column with
  | none => s
  | some col_idx =>
    { s with columns := s.columns.enum.map fun p =>
        if p.1 = col_idx then
          match p.2 with
          | ColumnState.Original => ColumnState.NonEmpty
          | _ => ColumnState.Original
        else p.2 }

/-- src/main.rs, `App::next_page`. -/
def App.next_page (s : App) : App :=
  if s.current_page + 1 < s.total_pages then
    { s with current_page := s.current_page + 1 }
  else s

/-- src/main.rs, `App::prev_page`. -/
def App.prev_page (s : App) : App :=
  if 0 < s.current_page then { s with current_page := s.current_page - 1 } else s

/-- src/main.rs, `App::handle_col_select`. -/
def App.handle_col_select (key : KeyCode) (s : App) : App :=
  match key with
  | .KChar c =>
    if c = ' ' then s.toggle_col_select
    else if c = 'a' then s.toggle_all_col
    else s
  | .Up | .Down =>
    { s with selected_column := navigate_index s.selected_column s.columns.length key }
  | .Enter => { s with selected_column := 0, step := .Preview }
  | _ => s

/-- src/main.rs, `App::handle_preview`. -/
def App.handle_preview (key : KeyCode) (s : App) : App :=
  match key with
  | .Left => s.prev_page
  | .Right => s.next_page
  | .KChar c =>
    if c = ' ' then s.toggle_col_filter
    else if c = '+' then { s with rows_per_page := s.rows_per_page + 1, current_page := 0 }
    else if c = '-' then
      { s with rows_per_page := max (s.rows_per_page - 1) 5, current_page := 0 }
    else s
  | .Home => { s with current_page := 0 }
  | .End => { s with current_page := s.total_pages - 1 }
  | .Up | .Down =>
    let visible := s.visible_columns
    if visible.isEmpty then s
    else { s with selected_column := navigate_index s.selected_column visible.length key }
  | .Enter => { s with step := .Export, export_focus_row := 0, export_edit := .FileName }
  | _ => s

/-- src/main.rs, `App::handle_export`.  Enter runs `export_to_json`, which
only writes the file and the toast, leaving every modelled field unchanged;
character input routed to a text field is modelled by the edit steps of
`Reachable` (length-preserving `List.set` updates). -/
def App.handle_export (key : KeyCode) (s : App) : App :=
  match key with
  | .Up | .Down =>
    let total_items := s.visible_columns.length + 2
    let delta := if key = KeyCode.Down then 1 else total_items - 1
    let focus := (s.export_focus_row + delta) % total_items
    { s with export_focus_row := focus,
             export_edit := if focus = 0 then ExportEdit.FileName else ExportEdit.KeyStr }
  | .Tab =>
    { s with export_edit :=
        if s.export_focus_row = 0 then
          match s.export_edit with
          | .FileName => .Dedup
          | _ => .FileName
        else
          match s.export_edit with
          | .KeyStr => .Pre
          | .Pre => .Post
          | _ => .KeyStr }
  | .Enter => s
  | .KChar c =>
    if s.export_focus_row = 0 then
      if s.export_edit = ExportEdit.Dedup ∧ c = ' ' then
        { s with deduplicate := !s.deduplicate }
      else s
    else s
  | _ => s

/-- src/types.rs, `App::new` (modelled fields only). -/
def App.new (sheets : List String) : App :=
  { sheets := sheets, selected_sheet := some 0, data := [], first_row := 0,
    columns := [], selected_column := 0, step := .SheetSelect, current_page := 0,
    rows_per_page := 10, column_configs := [], custom_keys := [],
    export_focus_row := 0, export_edit := .FileName, merge_info := none,
    deduplicate := true }

/-- The first-occurrence filter in src/main.rs, `App::export_to_json`:
`records.into_iter().filter(|rec| seen.insert(to_string(rec)))`.  The seen
`HashSet` is a list; keying on the pretty-printed record is keying on the
record itself, serialization being injective on these string-valued
objects. -/
def dedup_first {α : Type} [DecidableEq α] (seen : List α) : List α → List α
  | [] => []
  | x :: xs => if x ∈ seen then dedup_first seen xs else x :: dedup_first (x :: seen) xs

/-- The deduplication pass of `App::export_to_json` on the record list. -/
def dedup_records (records : List (List (String × String))) :
    List (List (String × String)) :=
  dedup_first [] records

/-- Spec-side restatement of first-occurrence filtering: walking the list
with the elements already passed in `pre`, keep an element exactly when it
did not occur earlier, preserving order. -/
def first_occ_spec {α : Type} [DecidableEq α] : List α → List α → List α
  | _, [] => []
  | pre, x :: xs =>
    if x ∈ pre then first_occ_spec (pre ++ [x]) xs
    else x :: first_occ_spec (pre ++ [x]) xs

/-- One session's reachable wizard states over a fixed workbook: the initial
state (src/main.rs, `main`) closed under every state-changing operation the
event loop can perform.  Each step mirrors one dispatch arm of
`App::handle_key`: the per-step handlers run only in their own step, Ctrl+B
applies `handle_back` in any step, the sheet-search fall-through can move the
selection to any matching (hence in-range) index, and character input routed
to a per-column text field replaces that entry by the typed text. -/
inductive Reachable (wb : Workbook) : App → Prop where
  | init (names : List String) : Reachable wb (App.new names)
  | sheet_key {s} (h : Reachable wb s) (hs : s.step = Step.SheetSelect)
      (key : KeyCode) : Reachable wb (s.handle_sheet_select wb key)
  | sheet_search {s} (h : Reachable wb s) (hs : s.step = Step.SheetSelect)
      {j : Nat} (hj : j < s.sheets.length) :
      Reachable wb { s with selected_sheet := some j }
  | row_trim_key {s} (h : Reachable wb s) (hs : s.step = Step.RowTrim)
      (parsed : Option Nat) : Reachable wb (s.handle_row_trim wb parsed)
  | merge_key {s} (h : Reachable wb s) (hs : s.step = Step.MergePrompt)
      (key : KeyCode) : Reachable wb (s.handle_merge_prompt wb key)
  | col_key {s} (h : Reachable wb s) (hs : s.step = Step.ColSelect)
      (key : KeyCode) : Reachable wb (s.handle_col_select key)
  | preview_key {s} (h : Reachable wb s) (hs : s.step = Step.Preview)
      (key : KeyCode) : Reachable wb (s.handle_preview key)
  | export_key {s} (h : Reachable wb s) (hs : s.step = Step.Export)
      (key : KeyCode) : Reachable wb (s.handle_export key)
  | back {s} (h : Reachable wb s) : Reachable wb { s with step := s.handle_back }
  | edit_custom_key {s} (h : Reachable wb s) (hs : s.step = Step.Export)
      {col_idx : Nat} (hf : 1 ≤ s.export_focus_row)
      (hc : s.visible_columns.get? (s.export_focus_row - 1) = some col_idx)
      (t : String) :
      Reachable wb { s with custom_keys := s.custom_keys.set col_idx t }
  | edit_pre {s} (h : Reachable wb s) (hs : s.step = Step.Export)
      {col_idx : Nat} (hf : 1 ≤ s.export_focus_row)
      (hc : s.visible_columns.get? (s.export_focus_row - 1) = some col_idx)
      (t : String) :
      Reachable wb { s with column_configs :=
        (s.column_configs.set col_idx
          { s.column_configs.getD col_idx default with pre := t }) }
  | edit_post {s} (h : Reachable wb s) (hs : s.step = Step.Export)
      {col_idx : Nat} (hf : 1 ≤ s.export_focus_row)
      (hc : s.visible_columns.get? (s.export_focus_row - 1) = some col_idx)
      (t : String) :
      Reachable wb { s with column_configs :=
        (s.column_configs.set col_idx
          { s.column_configs.getD col_idx default with post := t }) }

/-! ### Helper lemmas on the enumerated-filter shape of `visible_columns` -/

/-- The filtered-index expression underlying `App::visible_columns`. -/
def vcols_list (cols : List ColumnState) : List Nat :=
  (cols.enum.filter fun p => visible_state p.2).map Prod.fst

theorem enumFrom_filter_snd_map_fst {α : Type} (p : α → Bool) (l : List α) :
    ∀ k : Nat, ((l.enumFrom (k + 1)).filter fun q => p q.2).map Prod.fst =
      (((l.enumFrom k).filter fun q => p q.2).map Prod.fst).map (· + 1) := by
  induction l with
  | nil => intro k; rfl
  | cons x xs ih =>
    intro k
    by_cases hx : p x <;>
      simp [List.enumFrom, List.filter_cons, hx, ih (k + 1)]

theorem vcols_list_cons (x : ColumnState) (xs : List ColumnState) :
    vcols_list (x :: xs) =
      (if visible_state x then [0] else []) ++ (vcols_list xs).map (· + 1) := by
  by_cases hx : visible_state x <;>
    simp [vcols_list, List.enum, List.enumFrom, List.filter_cons, hx,
      enumFrom_filter_snd_map_fst visible_state xs 0]

theorem vcols_list_pairwise (cols : List ColumnState) :
    List.Pairwise (· < ·) (vcols_list cols) := by
  induction cols with
  | nil => exact List.Pairwise.nil
  | cons x xs ih =>
    rw [vcols_list_cons]
    by_cases hx : visible_state x
    · simp only [hx, if_pos, List.singleton_append]
      refine List.Pairwise.cons ?_ (ih.map _ fun a b hab => by omega)
      intro b hb
      rcases List.mem_map.mp hb with ⟨y, _, rfl⟩
      omega
    · simpa [hx] using ih.map _ fun a b hab => by omega

theorem vcols_list_mem (cols : List ColumnState) (i : Nat) :
    i ∈ vcols_list cols ↔ ∃ st, cols.get? i = some st ∧ visible_state st = true := by
  induction cols generalizing i with
  | nil => simp [vcols_list, List.enum, List.enumFrom]
  | cons x xs ih =>
    rw [vcols_list_cons]
    cases i with
    | zero => by_cases hx : visible_state x <;> simp [hx]
    | succ j => by_cases hx : visible_state x <;> simp [hx, ih j]

theorem visible_state_iff (st : ColumnState) :
    visible_state st = true ↔ (st = ColumnState.Original ∨ st = ColumnState.NonEmpty) := by
  cases st <;> simp [visible_state]

/-- C8: for every assignment of column states, `visible_columns()` is
strictly increasing, every element lies below `columns.len()`, and it
contains exactly the indices whose state is `Original` or `NonEmpty`. -/
theorem visible_columns_sorted_bounded (s : App) :
    List.Pairwise (· < ·) s.visible_columns ∧
    (∀ i, i ∈ s.visible_columns → i < s.columns.length) ∧
    (∀ i, i ∈ s.visible_columns ↔
      ∃ st, s.columns.get? i = some st ∧
        (st = ColumnState.Original ∨ st = ColumnState.NonEmpty)) := by
  have hvc : s.visible_columns = vcols_list s.columns := rfl
  refine ⟨by rw [hvc]; exact vcols_list_pairwise s.columns, ?_, ?_⟩
  · intro i hi
    rw [hvc, vcols_list_mem] at hi
    rcases hi with ⟨st, hst, -⟩
    exact (List.get?_eq_some.mp hst).1
  · intro i
    rw [hvc, vcols_list_mem]
    constructor
    · rintro ⟨st, hst, hvs⟩
      exact ⟨st, hst, (visible_state_iff st).mp hvs⟩
    · rintro ⟨st, hst, hor⟩
      exact ⟨st, hst, (visible_state_iff st).mpr hor⟩

/-- Concrete state exercising `visible_columns` for the C8 witness. -/
def sC8 : App := { App.new [] with columns := [ColumnState.Hidden, ColumnState.Original] }

/-- C8 witness: the theorem applied at a concrete column assignment. -/
theorem visible_columns_sorted_bounded_witness :
    (1 ∈ sC8.visible_columns) ∧ 1 < sC8.columns.length :=
  ⟨by decide, (visible_columns_sorted_bounded sC8).2.1 1 (by decide)⟩

/-- C10: for positive `len`, `navigate_index` maps Down to `(cur+1) % len`
and Up to `(cur+len-1) % len`, both in `[0, len)`, and on `[0, len)` the two
motions are mutually inverse. -/
theorem navigate_index_updown (cur len : Nat) (hlen : 0 < len) :
    navigate_index cur len KeyCode.Down = (cur + 1) % len ∧
    navigate_index cur len KeyCode.Up = (cur + len - 1) % len ∧
    navigate_index cur len KeyCode.Down < len ∧
    navigate_index cur len KeyCode.Up < len ∧
    (cur < len →
      navigate_index (navigate_index cur len KeyCode.Down) len KeyCode.Up = cur ∧
      navigate_index (navigate_index cur len KeyCode.Up) len KeyCode.Down = cur) := by
  refine ⟨rfl, rfl, Nat.mod_lt _ hlen, Nat.mod_lt _ hlen, ?_⟩
  intro hcur
  constructor
  · show ((cur + 1) % len + len - 1) % len = cur
    rcases Nat.lt_or_ge (cur + 1) len with h | h
    · rw [Nat.mod_eq_of_lt h]
      have h2 : cur + 1 + len - 1 = cur + len := by omega
      rw [h2, Nat.add_mod_right, Nat.mod_eq_of_lt hcur]
    · have hc : cur + 1 = len := by omega
      rw [hc, Nat.mod_self]
      have h2 : 0 + len - 1 = len - 1 := by omega
      rw [h2, Nat.mod_eq_of_lt (by omega)]
      omega
  · show ((cur + len - 1) % len + 1) % len = cur
    rcases Nat.eq_zero_or_pos cur with rfl | h
    · have h2 : 0 + len - 1 = len - 1 := by omega
      have hi : (len - 1) % len = len - 1 := Nat.mod_eq_of_lt (by omega)
      have h3 : len - 1 + 1 = len := by omega
      rw [h2, hi, h3, Nat.mod_self]
    · have h2 : cur + len - 1 = (cur - 1) + len := by omega
      have hi : (cur - 1) % len = cur - 1 := Nat.mod_eq_of_lt (by omega)
      have h3 : cur - 1 + 1 = cur := by omega
      rw [h2, Nat.add_mod_right, hi, h3, Nat.mod_eq_of_lt hcur]

/-- C10 witness: the theorem applied at `cur = 2`, `len = 3`. -/
theorem navigate_index_updown_witness :
    navigate_index 2 3 KeyCode.Down = (2 + 1) % 3 ∧
    navigate_index (navigate_index 2 3 KeyCode.Down) 3 KeyCode.Up = 2 :=
  ⟨(navigate_index_updown 2 3 (by decide)).1,
    ((navigate_index_updown 2 3 (by decide)).2.2.2.2 (by decide)).1⟩

/-! ### Pagination (C1) -/

theorem ceil_div_bounds (n b : Nat) (hb : 0 < b) :
    (n = 0 → (n + b - 1) / b = 0) ∧
    n ≤ ((n + b - 1) / b) * b ∧
    (0 < n → ((n + b - 1) / b - 1) * b < n) := by
  have h1 := Nat.div_add_mod (n + b - 1) b
  have h2 : (n + b - 1) % b < b := Nat.mod_lt _ hb
  have h3 : ((n + b - 1) / b) * b = b * ((n + b - 1) / b) := Nat.mul_comm _ _
  have h4 : ∀ q : Nat, (q - 1) * b = q * b - b := by
    intro q
    cases q with
    | zero => simp
    | succ q => rw [Nat.succ_sub_one, Nat.succ_mul]; omega
  refine ⟨?_, by omega, ?_⟩
  · intro hn
    subst hn
    exact Nat.div_eq_of_lt (by omega)
  · intro hn
    have h5 := h4 ((n + b - 1) / b)
    omega

/-- C1 (amended): `total_pages()` is the ceiling division of the number of
visible rows at or after `first_row` (the header row included: the source
skips only `first_row` rows) by `rows_per_page`, is 0 when that count is 0,
and satisfies the corresponding ceiling bounds for that count. -/
theorem total_pages_ceil (s : App) (hb : 0 < s.rows_per_page) :
    s.total_pages = (s.visible_row_count + s.rows_per_page - 1) / s.rows_per_page ∧
    (s.visible_row_count = 0 → s.total_pages = 0) ∧
    s.visible_row_count ≤ s.total_pages * s.rows_per_page ∧
    (0 < s.visible_row_count →
      (s.total_pages - 1) * s.rows_per_page < s.visible_row_count) := by
  have h0 : s.total_pages =
      (s.visible_row_count + s.rows_per_page - 1) / s.rows_per_page := rfl
  obtain ⟨hz, hub, hlb⟩ := ceil_div_bounds s.visible_row_count s.rows_per_page hb
  exact ⟨h0, fun hn => by rw [h0]; exact hz hn, by rw [h0]; exact hub,
    fun hn => by rw [h0]; exact hlb hn⟩

/-- C1 witness: the theorem applied at the initial state. -/
theorem total_pages_ceil_witness :
    0 < (App.new []).rows_per_page ∧ (App.new []).total_pages = 0 :=
  ⟨by decide, (total_pages_ceil (App.new []) (by decide)).2.1 (by decide)⟩

/-- A wizard state with six visible rows, all columns hidden (hence every row
visible) and `rows_per_page = 5`. -/
def sC1 : App :=
  { App.new [] with
    data := [["x"], ["x"], ["x"], ["x"], ["x"], ["x"]],
    columns := [ColumnState.Hidden],
    rows_per_page := 5 }

/-- C1 counterexample: `total_pages` counts visible rows from `first_row`
onwards (six here), giving 2 pages, while the ceiling division of the count
of rows strictly after `first_row` (five) by `rows_per_page` is 1; the
claimed strict lower bound against that strict-after count also fails. -/
theorem total_pages_counterexample :
    sC1.total_pages = 2 ∧
    ((sC1.data.drop (sC1.first_row + 1)).filter sC1.is_row_visible).length = 5 ∧
    sC1.total_pages ≠
      (((sC1.data.drop (sC1.first_row + 1)).filter sC1.is_row_visible).length
          + sC1.rows_per_page - 1) / sC1.rows_per_page ∧
    ¬ (sC1.total_pages - 1) * sC1.rows_per_page <
        ((sC1.data.drop (sC1.first_row + 1)).filter sC1.is_row_visible).length := by
  decide

/-! ### `rows_per_page` preservation (C9) -/

theorem load_sheet_rpp (wb : Workbook) (s : App) :
    (s.load_sheet wb).1.rows_per_page = s.rows_per_page := by
  unfold App.load_sheet
  repeat' split
  all_goals rfl

theorem handle_sheet_select_rpp (wb : Workbook) (key : KeyCode) (s : App) :
    (s.handle_sheet_select wb key).rows_per_page = s.rows_per_page := by
  cases key <;> try rfl
  case Enter =>
    have h := load_sheet_rpp wb s
    simp only [App.handle_sheet_select]
    rcases hl : s.load_sheet wb with ⟨s', b⟩
    rw [hl] at h
    cases b <;> simpa using h

theorem handle_row_trim_rpp (wb : Workbook) (parsed : Option Nat) (s : App) :
    (s.handle_row_trim wb parsed).rows_per_page = s.rows_per_page := by
  cases parsed with
  | none => rfl
  | some r =>
    simp only [App.handle_row_trim]
    split
    · split <;> rfl
    · rfl

theorem perform_merge_rpp (wb : Workbook) (s : App) :
    (s.perform_merge wb).rows_per_page = s.rows_per_page := by
  unfold App.perform_merge
  split <;> rfl

theorem handle_merge_prompt_rpp (wb : Workbook) (key : KeyCode) (s : App) :
    (s.handle_merge_prompt wb key).rows_per_page = s.rows_per_page := by
  cases key <;> try rfl
  case KChar c =>
    simp only [App.handle_merge_prompt]
    split
    · exact perform_merge_rpp wb s
    · split <;> rfl

theorem handle_col_select_rpp (key : KeyCode) (s : App) :
    (s.handle_col_select key).rows_per_page = s.rows_per_page := by
  cases key <;> try rfl
  case KChar c =>
    simp only [App.handle_col_select]
    split
    · rfl
    · split <;> rfl

theorem toggle_col_filter_rpp (s : App) :
    s.toggle_col_filter.rows_per_page = s.rows_per_page := by
  unfold App.toggle_col_filter
  split <;> rfl

theorem prev_page_rpp (s : App) : s.prev_page.rows_per_page = s.rows_per_page := by
  unfold App.prev_page
  split <;> rfl

theorem next_page_rpp (s : App) : s.next_page.rows_per_page = s.rows_per_page := by
  unfold App.next_page
  split <;> rfl

theorem handle_preview_rpp_ge (key : KeyCode) (s : App) (h : 5 ≤ s.rows_per_page) :
    5 ≤ (s.handle_preview key).rows_per_page := by
  cases key with
  | Left => simp only [App.handle_preview]; rw [prev_page_rpp]; exact h
  | Right => simp only [App.handle_preview]; rw [next_page_rpp]; exact h
  | KChar c =>
    simp only [App.handle_preview]
    split
    · rw [toggle_col_filter_rpp]; exact h
    · split
      · show 5 ≤ s.rows_per_page + 1
        omega
      · split
        · show 5 ≤ max (s.rows_per_page - 1) 5
          exact Nat.le_max_right _ 5
        · exact h
  | Up =>
    simp only [App.handle_preview]
    split
    · exact h
    · exact h
  | Down =>
    simp only [App.handle_preview]
    split
    · exact h
    · exact h
  | Home => exact h
  | End => exact h
  | Enter => exact h
  | Tab => exact h

theorem handle_export_rpp (key : KeyCode) (s : App) :
    (s.handle_export key).rows_per_page = s.rows_per_page := by
  cases key <;> try rfl
  case KChar c =>
    simp only [App.handle_export]
    split
    · split <;> rfl
    · rfl

/-- C9: every reachable wizard state has `rows_per_page ≥ 5` (initialized to
10, increased by `+`, floored at 5 by `-`, untouched by every other
operation), so the divisor inside `total_pages()` is never zero. -/
theorem rows_per_page_ge_five {wb : Workbook} {s : App} (h : Reachable wb s) :
    5 ≤ s.rows_per_page ∧ 0 < s.rows_per_page := by
  have h5 : 5 ≤ s.rows_per_page := by
    induction h with
    | init names => show 5 ≤ 10; omega
    | sheet_key h hs key ih => rw [handle_sheet_select_rpp]; exact ih
    | sheet_search h hs hj ih => exact ih
    | row_trim_key h hs parsed ih => rw [handle_row_trim_rpp]; exact ih
    | merge_key h hs key ih => rw [handle_merge_prompt_rpp]; exact ih
    | col_key h hs key ih => rw [handle_col_select_rpp]; exact ih
    | preview_key h hs key ih => exact handle_preview_rpp_ge key _ ih
    | export_key h hs key ih => rw [handle_export_rpp]; exact ih
    | back h ih => exact ih
    | edit_custom_key h hs hf hc t ih => exact ih
    | edit_pre h hs hf hc t ih => exact ih
    | edit_post h hs hf hc t ih => exact ih
  exact ⟨h5, by omega⟩

/-- C9 witness: the theorem applied to the initial state of a session. -/
theorem rows_per_page_ge_five_witness :
    5 ≤ (App.new ["Sheet1"]).rows_per_page ∧ 0 < (App.new ["Sheet1"]).rows_per_page :=
  rows_per_page_ge_five (@Reachable.init (fun _ => none) ["Sheet1"])

/-! ### Export deduplication (C6) -/

theorem dedup_first_idem {α : Type} [DecidableEq α] :
    ∀ (l seen : List α), dedup_first seen (dedup_first seen l) = dedup_first seen l := by
  intro l
  induction l with
  | nil => intro seen; rfl
  | cons x xs ih =>
    intro seen
    by_cases hx : x ∈ seen
    · simp only [dedup_first, if_pos hx]
      exact ih seen
    · simp only [dedup_first, if_neg hx]
      rw [ih (x :: seen)]

theorem dedup_first_sublist {α : Type} [DecidableEq α] :
    ∀ (l seen : List α), List.Sublist (dedup_first seen l) l := by
  intro l
  induction l with
  | nil => intro seen; exact List.Sublist.refl []
  | cons x xs ih =>
    intro seen
    by_cases hx : x ∈ seen
    · simp only [dedup_first, if_pos hx]
      exact (ih seen).cons x
    · simp only [dedup_first, if_neg hx]
      exact (ih (x :: seen)).cons₂ x

theorem dedup_first_eq_first_occ {α : Type} [DecidableEq α] :
    ∀ (l seen pre : List α), (∀ v, v ∈ seen ↔ v ∈ pre) →
      dedup_first seen l = first_occ_spec pre l := by
  intro l
  induction l with
  | nil => intro seen pre _; rfl
  | cons x xs ih =>
    intro seen pre hmem
    have hgrow : ∀ v, v ∈ x :: seen ↔ v ∈ pre ++ [x] := by
      intro v
      simp only [List.mem_cons, List.mem_append, List.mem_singleton, hmem v]
      tauto
    by_cases hx : x ∈ seen
    · have hx' : x ∈ pre := (hmem x).mp hx
      simp only [dedup_first, if_pos hx, first_occ_spec, if_pos hx']
      refine ih seen (pre ++ [x]) ?_
      intro v
      simp only [List.mem_append, List.mem_singleton, hmem v]
      constructor
      · exact fun h => Or.inl h
      · rintro (h | rfl)
        · exact h
        · exact hx'
    · have hx' : x ∉ pre := fun h => hx ((hmem x).mpr h)
      simp only [dedup_first, if_neg hx, first_occ_spec, if_neg hx']
      rw [ih (x :: seen) (pre ++ [x]) hgrow]

/-- C6: the first-occurrence deduplication of the export record list is
idempotent, its output is a sublist of its input (survivors keep their
original relative order), and it equals the spec-side first-occurrence
filter (each survivor is the first occurrence of its value, in order of
first appearance). -/
theorem dedup_records_idem_first_occ (records : List (List (String × String))) :
    dedup_records (dedup_records records) = dedup_records records ∧
    List.Sublist (dedup_records records) records ∧
    dedup_records records = first_occ_spec [] records :=
  ⟨dedup_first_idem records [], dedup_first_sublist records [],
    dedup_first_eq_first_occ records [] [] fun _ => Iff.rfl⟩

/-! ### Merge common-column set and new header (C5) -/

theorem foldl_filter_mem {β : Type} (f : β → List String)
    (x : String) :
    ∀ (info : List β) (init : List String),
      (x ∈ info.foldl (fun common m => common.filter fun c => (f m).contains c) init ↔
        x ∈ init ∧ ∀ m ∈ info, x ∈ f m) := by
  intro info
  induction info with
  | nil => intro init; simp
  | cons m ms ih =>
    intro init
    rw [List.foldl_cons, ih]
    simp only [List.mem_filter, List.mem_cons]
    constructor
    · rintro ⟨⟨hinit, hcont⟩, hrest⟩
      refine ⟨hinit, ?_⟩
      rintro m' (rfl | hm')
      · simpa using hcont
      · exact hrest m' hm'
    · rintro ⟨hinit, hall⟩
      exact ⟨⟨hinit, by simpa using hall m (Or.inl rfl)⟩,
        fun m' hm' => hall m' (Or.inr hm')⟩

/-- C5: the final common-column set of a merge is the set of the primary
header's trimmed names intersected in sequence with every candidate's
shared-name list, and the new header row is exactly the primary header's
cells (original casing, original order) whose trimmed names belong to that
common set. -/
theorem merge_common_new_header (primary_header : List String)
    (info : List (String × List String)) :
    (∀ x, x ∈ merge_common primary_header info ↔
      (x ∈ primary_header.map trim_text ∧ ∀ m ∈ info, x ∈ m.2)) ∧
    merge_new_header primary_header info =
      primary_header.filter fun c =>
        decide (trim_text c ∈ primary_header.map trim_text ∧
          ∀ m ∈ info, trim_text c ∈ m.2) := by
  have hmem : ∀ x, x ∈ merge_common primary_header info ↔
      (x ∈ primary_header.map trim_text ∧ ∀ m ∈ info, x ∈ m.2) := by
    intro x
    exact foldl_filter_mem Prod.snd x info (primary_header.map trim_text)
  refine ⟨hmem, ?_⟩
  unfold merge_new_header
  apply List.filter_congr
  intro c _
  rw [Bool.eq_iff_iff]
  simp [hmem (trim_text c)]

/-! ### Row-trim validation (C7) -/

/-- C7: in `RowTrim`, Enter accepts exactly a parsed row index strictly below
the row count: it then sets `first_row` and advances to `MergePrompt` when
some candidate sheet shares a header name (non-empty `check_merge_options`),
else to `ColSelect`; otherwise the state is returned unchanged (no error
surfaced). -/
theorem handle_row_trim_correct (wb : Workbook) (s : App) (parsed : Option Nat) :
    ((∀ r, parsed = some r → ¬ r < s.data.length) → s.handle_row_trim wb parsed = s) ∧
    (∀ r, parsed = some r → r < s.data.length →
      (s.handle_row_trim wb parsed).first_row = r ∧
      (s.handle_row_trim wb parsed).step =
        (if ({ s with first_row := r } : App).check_merge_options wb = []
          then Step.ColSelect else Step.MergePrompt) ∧
      (s.handle_row_trim wb parsed).merge_info =
        (if ({ s with first_row := r } : App).check_merge_options wb = []
          then s.merge_info
          else some (({ s with first_row := r } : App).check_merge_options wb))) := by
  constructor
  · intro hrej
    cases parsed with
    | none => rfl
    | some r =>
      have hn : ¬ r < s.data.length := hrej r rfl
      simp only [App.handle_row_trim, if_neg hn]
  · intro r hr hlt
    subst hr
    by_cases hinfo : ({ s with first_row := r } : App).check_merge_options wb = []
    · simp only [App.handle_row_trim, if_pos hlt, hinfo, List.isEmpty_nil, if_pos]
      refine ⟨?_, ?_, ?_⟩ <;> trivial
    · have hne : (({ s with first_row := r } : App).check_merge_options wb).isEmpty = false := by
        rw [List.isEmpty_eq_false_iff_exists_mem]
        rcases List.exists_mem_of_ne_nil _ hinfo with ⟨a, ha⟩
        exact ⟨a, ha⟩
      simp only [App.handle_row_trim, if_pos hlt, hne, Bool.false_eq_true, if_false,
        if_neg hinfo]
      refine ⟨?_, ?_, ?_⟩ <;> trivial

/-- A two-sheet workbook: "S" with headers a, b and "T" sharing only a. -/
def wbST : Workbook := fun name =>
  if name = "S" then some [["a", "b"], ["1", "2"]]
  else if name = "T" then some [["a"], ["x"]]
  else none

/-- A concrete `RowTrim` state over `wbST` with sheet "S" loaded. -/
def sC7 : App :=
  { App.new ["S", "T"] with data := [["a", "b"], ["1", "2"]], step := Step.RowTrim }

/-- C7 witness: the theorem applied at a rejected and at an accepted input. -/
theorem handle_row_trim_correct_witness :
    sC7.handle_row_trim wbST (some 5) = sC7 ∧
    (sC7.handle_row_trim wbST (some 0)).first_row = 0 ∧
    (sC7.handle_row_trim wbST (some 0)).step = Step.MergePrompt :=
  ⟨(handle_row_trim_correct wbST sC7 (some 5)).1 (by intro r hr; cases hr; decide),
   ((handle_row_trim_correct wbST sC7 (some 0)).2 0 rfl (by decide)).1,
   by
     have h := ((handle_row_trim_correct wbST sC7 (some 0)).2 0 rfl (by decide)).2.1
     have h2 : ({ sC7 with first_row := 0 } : App).check_merge_options wbST =
         [("T", ["a"])] := by decide
     rw [h, h2]
     simp⟩

/-! ### Export record construction (C3) -/

theorem filterMap_eq_map_of_forall {α β : Type} (l : List α) (f : α → Option β)
    (g : α → β) (h : ∀ a ∈ l, f a = some (g a)) : l.filterMap f = l.map g := by
  induction l with
  | nil => rfl
  | cons x xs ih =>
    rw [List.filterMap_cons, h x (List.mem_cons_self x xs), List.map_cons,
      ih fun a ha => h a (List.mem_cons_of_mem x ha)]

/-- Spec-side record construction, written from the specification: every row
strictly after `first_row` that is row-visible is projected over
`visible_columns()` into fields whose key is the normalized custom key when
the custom key is non-empty, else the normalized header cell at that column,
and whose value is `prefix ++ cell_text ++ postfix`. -/
def create_json_records_spec (u : String → String) (s : App) :
    List (List (String × String)) :=
  ((s.data.drop (s.first_row + 1)).filter s.is_row_visible).map fun row =>
    s.visible_columns.map fun col_idx =>
      let custom := s.custom_keys.getD col_idx ""
      let header_cell := (s.data.getD s.first_row []).getD col_idx ""
      let config := s.column_configs.getD col_idx default
      (if custom ≠ "" then normalize_text u custom else normalize_text u header_cell,
        config.pre ++ row.getD col_idx "" ++ config.post)

/-- C3: on rectangular data (every row long enough for every visible
column), `create_json_records` produces exactly the spec-side projection:
the row-visible rows strictly after `first_row`, projected over
`visible_columns()`, with normalized custom-key-or-header keys and
prefix/cell/postfix values. -/
theorem create_json_records_correct (u : String → String) (s : App)
    (hw : ∀ row ∈ s.data, ∀ i ∈ s.visible_columns, i < row.length) :
    s.create_json_records u = create_json_records_spec u s := by
  unfold App.create_json_records create_json_records_spec
  apply List.map_congr_left
  intro row hrow
  have hrow' : row ∈ s.data :=
    List.mem_of_mem_drop (List.mem_of_mem_filter hrow)
  apply filterMap_eq_map_of_forall
  intro col_idx hcol
  have hlt : col_idx < row.length := hw row hrow' col_idx hcol
  rcases hv : row.get? col_idx with _ | v
  · rw [List.get?_eq_none] at hv
    omega
  · have hD : row.getD col_idx "" = v := by
      simp [List.getD_eq_getElem?_getD, ← List.get?_eq_getElem?, hv]
    have hD2 : row[col_idx]?.getD "" = v := by
      rw [← List.getD_eq_getElem?_getD]; exact hD
    simp [hD2, ne_eq, ite_not, apply_ite (normalize_text u)]

/-- A loaded state with two `NonEmpty` columns, a per-column prefix, postfix
and custom key, and a blank-celled row that row-filtering drops. -/
def sC3 : App :=
  { App.new ["Sh"] with
    data := [["First Name", "Age"], ["Ann", "30"], ["", "x"]],
    columns := [ColumnState.NonEmpty, ColumnState.NonEmpty],
    column_configs := [⟨"p_", ""⟩, ⟨"", "_q"⟩],
    custom_keys := ["", "years"] }

/-- C3 witness: the theorem applied at `sC3` with the transliteration
instantiated to the identity. -/
theorem create_json_records_correct_witness :
    (∀ row ∈ sC3.data, ∀ i ∈ sC3.visible_columns, i < row.length) ∧
    sC3.create_json_records id = create_json_records_spec id sC3 :=
  ⟨by decide, create_json_records_correct id sC3 (by decide)⟩

/-! ### Merge row accounting (C4) -/

/-- C4: when every contributing sheet (the primary sheet, then each merge
candidate in listed order) decodes and has more than `first_row` rows, the
merged `data` is exactly the new header followed, in sheet-then-row order, by
each sheet's rows after its own header row projected onto the new header; in
particular its length is one plus the sum of the contributing sheets' row
counts after their header rows. -/
theorem perform_merge_rows (wb : Workbook) (s : App) (primary_header : List String)
    (hph : s.data.get? s.first_row = some primary_header)
    (hdec : ∀ name ∈ s.contrib_names,
      ∃ rows, wb name = some rows ∧ s.first_row < rows.length) :
    (s.perform_merge wb).data =
      merge_new_header primary_header (s.merge_info.getD []) ::
        (s.contrib_names.map fun n =>
          (((wb n).getD []).drop (s.first_row + 1)).map
            (project_row (((wb n).getD []).getD s.first_row [])
              (merge_new_header primary_header (s.merge_info.getD [])))).flatten ∧
    (s.perform_merge wb).data.length =
      1 + (s.contrib_names.map fun n =>
        ((wb n).getD []).length - (s.first_row + 1)).sum := by
  have hdata : (s.perform_merge wb).data =
      merge_new_header primary_header (s.merge_info.getD []) ::
        (s.contrib_names.map (try_merge_sheet wb s.first_row
          (merge_new_header primary_header (s.merge_info.getD [])))).flatten := by
    unfold App.perform_merge
    rw [hph]
  have hsheet : ∀ n ∈ s.contrib_names,
      try_merge_sheet wb s.first_row
          (merge_new_header primary_header (s.merge_info.getD [])) n =
        (((wb n).getD []).drop (s.first_row + 1)).map
          (project_row (((wb n).getD []).getD s.first_row [])
            (merge_new_header primary_header (s.merge_info.getD []))) := by
    intro n hn
    rcases hdec n hn with ⟨rows, hwb, hlen⟩
    simp only [try_merge_sheet, hwb, Option.getD_some]
    rw [if_neg (by omega)]
  constructor
  · rw [hdata, List.map_congr_left hsheet]
  · rw [hdata]
    simp only [List.length_cons, List.length_flatten, List.map_map]
    have hmapeq : s.contrib_names.map
          (List.length ∘ try_merge_sheet wb s.first_row
            (merge_new_header primary_header (s.merge_info.getD []))) =
        s.contrib_names.map fun n => ((wb n).getD []).length - (s.first_row + 1) := by
      apply List.map_congr_left
      intro n hn
      simp [Function.comp, hsheet n hn]
    rw [hmapeq]
    omega

/-- A two-sheet workbook for the merge witness: "P" with columns id, a and
two data rows, "Q" sharing only id with one data row. -/
def wbPQ : Workbook := fun name =>
  if name = "P" then some [["id", "a"], ["1", "x"], ["2", "y"]]
  else if name = "Q" then some [["id"], ["3"]]
  else none

/-- A state about to merge "P" (primary, loaded) with candidate "Q". -/
def sC4 : App :=
  { App.new ["P", "Q"] with
    data := [["id", "a"], ["1", "x"], ["2", "y"]],
    merge_info := some [("Q", ["id"])] }

/-- C4 witness: the theorem applied at `sC4`; the merged sheet has one header
row plus 2 + 1 contributed rows. -/
theorem perform_merge_rows_witness :
    sC4.data.get? sC4.first_row = some ["id", "a"] ∧
    (sC4.perform_merge wbPQ).data.length = 4 := by
  refine ⟨by decide, ?_⟩
  have hdec : ∀ name ∈ sC4.contrib_names,
      ∃ rows, wbPQ name = some rows ∧ sC4.first_row < rows.length := by
    intro name hn
    have hc : sC4.contrib_names = ["P", "Q"] := by decide
    rw [hc] at hn
    simp only [List.mem_cons, List.not_mem_nil, or_false] at hn
    rcases hn with rfl | rfl
    · exact ⟨[["id", "a"], ["1", "x"], ["2", "y"]], by decide, by decide⟩
    · exact ⟨[["id"], ["3"]], by decide, by decide⟩
  have h := (perform_merge_rows wbPQ sC4 ["id", "a"] (by decide) hdec).2
  rw [h]
  decide

/-! ### Per-column state lengths (C2) -/

/-- C2 (amended): a successful `load_sheet` makes `columns`,
`column_configs` and `custom_keys` as long as the first data row; but
`perform_merge` leaves all three per-column vectors unchanged while replacing
`data`, so the shared length survives a merge only when the merged header
keeps every primary column. -/
theorem column_state_lengths (wb : Workbook) (s s' : App) :
    (s.load_sheet wb = (s', true) →
      s'.columns.length = (s'.data.getD 0 []).length ∧
      s'.column_configs.length = (s'.data.getD 0 []).length ∧
      s'.custom_keys.length = (s'.data.getD 0 []).length) ∧
    ((s.perform_merge wb).columns = s.columns ∧
      (s.perform_merge wb).column_configs = s.column_configs ∧
      (s.perform_merge wb).custom_keys = s.custom_keys) := by
  constructor
  · intro hload
    unfold App.load_sheet at hload
    split at hload
    · simp at hload
    · split at hload
      · simp at hload
      · split at hload
        · simp at hload
        · injection hload with h1 _
          subst h1
          simp
  · unfold App.perform_merge
    split <;> exact ⟨rfl, rfl, rfl⟩

/-- C2 witness: the load part of the theorem applied at a concrete load. -/
theorem column_state_lengths_witness :
    ((App.new ["S", "T"]).load_sheet wbST).1.columns.length =
      ((((App.new ["S", "T"]).load_sheet wbST).1.data.getD 0 [])).length :=
  (((column_state_lengths wbST (App.new ["S", "T"])
    ((App.new ["S", "T"]).load_sheet wbST).1).1) (by decide)).1

/-- The state reached by loading sheet "S" of `wbST`, accepting header row 0
and answering the merge prompt with y: the merged header keeps only the
shared column a. -/
def exC2 : App :=
  (((App.new ["S", "T"]).handle_sheet_select wbST KeyCode.Enter).handle_row_trim wbST
    (some 0)).handle_merge_prompt wbST (KeyCode.KChar 'y')

/-- C2 counterexample: `exC2` is reachable, lies after a successful sheet
load, and yet has `columns.len() = 2` while `data[0].len() = 1`, because
`perform_merge` replaced `data` without reinitializing the per-column
state. -/
theorem column_state_lengths_counterexample :
    Reachable wbST exC2 ∧ exC2.columns.length = 2 ∧ (exC2.data.getD 0 []).length = 1 :=
  ⟨Reachable.merge_key
      (Reachable.row_trim_key
        (Reachable.sheet_key (@Reachable.init wbST ["S", "T"]) (by decide) KeyCode.Enter)
        (by decide) (some 0))
      (by decide) (KeyCode.KChar 'y'),
    by decide, by decide⟩
